import Mathlib

/-!
Verification of the command loading & dispatch engine (`CommandManager`).

JavaScript strings are modelled as `List Char`; JavaScript `undefined` for an
optional string field is `Option.none`, and JavaScript truthiness of a
maybe-string is `truthy` below (both `undefined` and the empty string are
falsy). Machinery that can throw is modelled with `Except Unit`.
-/

namespace Kotoba

/-- JavaScript strings, modelled as lists of characters. -/
abbrev JStr := List Char

/-- Shorthand turning a Lean string literal into its character list. -/
def str (s : String) : JStr := s.data

/-- JS truthiness of a maybe-string value: `undefined` and `""` are falsy. -/
def truthy : Option JStr → Bool
  | none => false
  | some s => !s.isEmpty

/-- `s.replace('　', ' ')` with a one-character string pattern: JS
`String.prototype.replace` with a string pattern replaces only the first
occurrence. -/
def jsReplaceFirst : JStr → Char → Char → JStr
  | [], _, _ => []
  | c :: rest, pat, rep =>
    if c = pat then rep :: rest else c :: jsReplaceFirst rest pat rep

/-- `s.indexOf(ch)` for a one-character needle; `none` models `-1`. -/
def jsIndexOfChar : JStr → Char → Option Nat
  | [], _ => none
  | c :: rest, t =>
    if c = t then some 0 else (jsIndexOfChar rest t).map (· + 1)

/-- Helper for substring search: does `pat` occur in the second argument? -/
def jsIncludesAux (pat : JStr) : JStr → Bool
  | [] => pat.isEmpty
  | c :: t => pat.isPrefixOf (c :: t) || jsIncludesAux pat t

/-- `hay.indexOf(pat) !== -1` for a string needle. -/
def jsIncludes (hay pat : JStr) : Bool := jsIncludesAux pat hay

/-- `s.toLowerCase()` (ASCII case mapping suffices for the engine's inputs). -/
def toLowerJs (s : JStr) : JStr := s.map Char.toLower

/-- The whitespace characters stripped by `String.prototype.trim`. -/
def isJsWhitespace (c : Char) : Bool :=
  c = ' ' || c = '\t' || c = '\n' || c = '\x0d' || c = '\x0b' || c = '\x0c' ||
  c = ' ' || c = '　' || c = '﻿'

/-- `s.trim()`: strip leading and trailing JS whitespace. -/
def jsTrim (s : JStr) : JStr :=
  ((s.dropWhile isJsWhitespace).reverse.dropWhile isJsWhitespace).reverse

/-- The full-width (ideographic) space `'　'` normalized by the
dispatcher. -/
def fullWidthSpace : Char := '　'

/-- The resolved value of a handler's promise, as far as the dispatcher
inspects it (`typeof result !== typeof ''`). -/
inductive JsValue where
  | undef : JsValue
  | strv : JStr → JsValue
  | num : Int → JsValue
  | boolean : Bool → JsValue
deriving DecidableEq

/-- `typeof v === 'string'`. -/
def JsValue.isString : JsValue → Bool
  | .strv _ => true
  | _ => false

/-- An error object reaching `handleCommandError`: its fields as the classifier
reads them. `none` on a string field models an absent (`undefined`) field;
`isPublicError` models `err instanceof PublicError`, whose wrapped
`internalErr` is kept opaque as an optional tag. -/
structure ErrObj where
  publicMessage : Option JStr := none
  logDescription : Option JStr := none
  message : Option JStr := none
  isPublicError : Bool := false
  internalErr : Option JStr := none
deriving DecidableEq

/-- The cause handed to `logger.logFailure`: either a `PublicError`'s wrapped
internal error, or the raised error object itself. -/
inductive Cause where
  | opaqueTag : JStr → Cause
  | errObj : ErrObj → Cause
deriving DecidableEq

/-- One observable side effect on the collaborators (transport and logger). -/
inductive Effect where
  | createMessage (channel : Nat) (text : JStr)
  | logInputReaction (title : JStr) (msgContent : JStr) (note : JStr)
      (success : Bool) (description : JsValue)
  | logFailure (title : JStr) (description : JStr) (cause : Option Cause)
deriving DecidableEq

/-- The outcome of handing an invocation to a command's handler: the promise
resolves to a value, rejects with an error, or the handler throws
synchronously during hand-off. -/
inductive HandlerOutcome where
  | resolves : JsValue → HandlerOutcome
  | rejects : ErrObj → HandlerOutcome
  | throwsSync : ErrObj → HandlerOutcome
deriving DecidableEq

/-- A loaded `Command` as the manager reads it: its alias list, optional
`uniqueId`, and its handler, modelled by the outcome of the dispatched
invocation. -/
structure Command where
  aliases : List JStr
  uniqueId : Option JStr := none
  handle : HandlerOutcome := .resolves .undef
deriving DecidableEq

/-- An incoming message: its text and the channel it answers to. -/
structure Msg where
  content : JStr
  channel : Nat := 0
deriving DecidableEq

/-- The monochrome host configuration fields the engine reads. -/
structure Config where
  missingPermissionsErrorMessage : Option JStr := none
  genericErrorMessage : Option JStr := none
deriving DecidableEq

/-- `handleCommandError(msg, err, config, logger)`. Returns the effect list it
performs, or `Except.error ()` when the classifier itself throws: reading
`err.message.indexOf` with `err.message` absent raises a `TypeError` before
any effect happens. -/
def handleCommandError (msg : Msg) (err : ErrObj) (config : Config) :
    Except Unit (List Effect) :=
  let loggerTitle := str "COMMAND"
  let step : Except Unit (Option JStr × Option JStr) :=
    if truthy err.publicMessage then
      .ok (err.publicMessage, err.logDescription)
    else
      match err.message with
      | none => .error ()
      | some m =>
        if jsIncludes m (str "Missing Permissions")
            && truthy config.missingPermissionsErrorMessage then
          .ok (config.missingPermissionsErrorMessage,
               if truthy err.logDescription then err.logDescription
               else some (str "Missing permissions"))
        else
          .ok (err.publicMessage, err.logDescription)
  match step with
  | .error () => .error ()
  | .ok (publicMessage0, errDescription0) =>
    let errDescription : JStr :=
      if truthy errDescription0 then errDescription0.getD []
      else str "Exception or promise rejection"
    let publicMessage : Option JStr :=
      if truthy publicMessage0 then publicMessage0
      else config.genericErrorMessage
    let internalErr : Option Cause :=
      if err.isPublicError then err.internalErr.map Cause.opaqueTag
      else some (.errObj err)
    .ok ((if truthy publicMessage then
            [Effect.createMessage msg.channel (publicMessage.getD [])]
          else []) ++
         [Effect.logInputReaction loggerTitle msg.content [] false
            (.strv errDescription)] ++
         (match internalErr with
          | some c =>
            [Effect.logFailure loggerTitle
              (str "Command \x27" ++ msg.content ++
               str "\x27 threw an exception or returned a promise that rejected.")
              (some c)]
          | none => []))

/-- `getDuplicateAlias(command, otherCommands)`: the first alias of `command`
that some command in `otherCommands` also carries. -/
def getDuplicateAlias (command : Command) (otherCommands : List Command) :
    Option JStr :=
  command.aliases.find? fun a =>
    otherCommands.any fun cmd => cmd.aliases.contains a

/-- One node of the settings tree handed to the settings manager. -/
inductive SettingsNode where
  | setting (name : JStr) (description : JStr) (valueType : JStr)
      (defaultDatabaseFacingValue : Bool)
  | category (name : JStr) (children : List SettingsNode)

/-- `createSettingsHierarchyForCommand(userCommand)`. `aliases[0]` on an empty
JS array is `undefined`, which string concatenation coerces to
`"undefined"`, hence the `headD`. -/
def createSettingsHierarchyForCommand (userCommand : Command) : SettingsNode :=
  .setting (userCommand.aliases.headD (str "undefined") ++ str "_enabled")
    (str "This setting controls whether the " ++
     userCommand.aliases.headD (str "undefined") ++
     str " command (and all of its aliases) is allowed to be used or not.")
    (str "BOOLEAN")
    true

/-- `createSettingsHierarchyForCommands(userCommands)`. -/
def createSettingsHierarchyForCommands (userCommands : List Command) :
    List SettingsNode :=
  userCommands.map createSettingsHierarchyForCommand

/-- `createSettingsCategoryForCommands(userCommands)`. -/
def createSettingsCategoryForCommands (userCommands : List Command) :
    SettingsNode :=
  .category (str "commands") (createSettingsHierarchyForCommands userCommands)

/-- One enumerated command source file, together with the result of
`reload(commandFile); new Command(commandInformation)` for it: the constructed
`Command`, or the exception the construction threw. -/
structure LoadItem where
  file : JStr
  info : Except Cause Command

/-- The prefix of every load-failure log message. -/
def FailedToLoadMessageStart : JStr := str "Failed to load command from file: "

/-- The loader's logger title. -/
def loaderTitle : JStr := str "COMMAND MANAGER"

/-- The `uniqueId` guard of the load loop:
`command.uniqueId && this.commands_.find(cmd => cmd.uniqueId === command.uniqueId)`. -/
def uniqueIdClash (command : Command) (cmds : List Command) : Bool :=
  truthy command.uniqueId && cmds.any fun cmd => cmd.uniqueId == command.uniqueId

/-- The body of the load loop for one command file, acting on the accumulated
registry and failure log. -/
def loadStep (st : List Command × List Effect) (item : LoadItem) :
    List Command × List Effect :=
  match item.info with
  | .error e =>
    (st.1, st.2 ++ [Effect.logFailure loaderTitle
      (FailedToLoadMessageStart ++ item.file) (some e)])
  | .ok command =>
    if uniqueIdClash command st.1 then
      (st.1, st.2 ++ [Effect.logFailure loaderTitle
        (FailedToLoadMessageStart ++ item.file ++ str ". Error: uniqueId: " ++
         command.uniqueId.getD [] ++ str " not unique") none])
    else
      match getDuplicateAlias command st.1 with
      | some duplicateAlias =>
        (st.1, st.2 ++ [Effect.logFailure loaderTitle
          (FailedToLoadMessageStart ++ item.file ++ str ". Error: alias: " ++
           duplicateAlias ++ str " is not unique") none])
      | none => (st.1 ++ [command], st.2)

/-- The user-command phase of `load`: fold the load loop over the enumerated
files, starting from the freshly cleared registry. -/
def loadUserCommands (items : List LoadItem) : List Command × List Effect :=
  items.foldl loadStep ([], [])

/-- The manager's published state: the `commands_` array that `processInput`
scans, and the `settingsCategory_` produced by the last successful load. -/
structure ManagerState where
  commands_ : List Command
  settingsCategory_ : Option SettingsNode

/-- `CommandManager.load(settingsManager, config)`.

`prev` is the state before the call; the enumeration result of
`FileSystemUtils.getFilesInDirectory` is passed as `enumResult`. The
`this.commands_ = []` on the line before the enumeration clears the published
registry synchronously, so a failed enumeration leaves it empty. The built-in
administrative commands (allow, unrestrict, ban, settings) and the optional
reload command are external collaborators constructed from modules outside
this file; only their constructed `Command` shape matters here, so they are
passed in as `builtins` and `reloadCommand`. Returns the state after the call
settles together with the effects the call performed. -/
def CommandManager.load (builtins : List Command) (reloadCommand : Option Command)
    (prev : ManagerState) (enumResult : Except Cause (List LoadItem)) :
    ManagerState × List Effect :=
  let cleared : ManagerState := { prev with commands_ := [] }
  match enumResult with
  | .error err =>
    (cleared, [Effect.logFailure loaderTitle (str "Error loading commands.")
      (some err)])
  | .ok items =>
    let afterUsers := loadUserCommands items
    let userCommands := afterUsers.1
    ({ commands_ := userCommands ++ builtins ++ reloadCommand.toList,
       settingsCategory_ := some (createSettingsCategoryForCommands userCommands) },
     afterUsers.2)

/-- `msgContent.substring(0, spaceIndex).toLowerCase()` (the whole text when
there is no space): the candidate command text. -/
def commandTextOf (msgContent : JStr) : JStr :=
  match jsIndexOfChar msgContent ' ' with
  | none => toLowerJs msgContent
  | some spaceIndex => toLowerJs (msgContent.take spaceIndex)

/-- `msgContent.substring(spaceIndex + 1, msgContent.length).trim()` (empty
when there is no space): the suffix handed to the handler. -/
def suffixOf (msgContent : JStr) : JStr :=
  match jsIndexOfChar msgContent ' ' with
  | none => []
  | some spaceIndex => jsTrim (msgContent.drop (spaceIndex + 1))

/-- What one `processInput` call did: whether the input was claimed, which
command (with which suffix) the invocation was handed to, and the effects on
the collaborators. `effects = Except.error ()` records that the error
classifier itself threw, escaping the catch at the invocation boundary. -/
structure DispatchResult where
  claimed : Bool
  invoked : Option (Command × JStr)
  effects : Except Unit (List Effect)

/-- `CommandManager.processInput(bot, msg, config)` over a published registry
`commands`. -/
def processInput (commands : List Command) (msg : Msg) (config : Config) :
    DispatchResult :=
  let loggerTitle := str "COMMAND"
  let msgContent := jsReplaceFirst msg.content fullWidthSpace ' '
  let commandText := commandTextOf msgContent
  match commands.find? (fun command => command.aliases.contains commandText) with
  | some command =>
    let suffix := suffixOf msgContent
    { claimed := true
      invoked := some (command, suffix)
      effects :=
        match command.handle with
        | .resolves result =>
          .ok [Effect.logInputReaction loggerTitle msg.content []
                (!result.isString) result]
        | .rejects err => handleCommandError msg err config
        | .throwsSync err => handleCommandError msg err config }
  | none => { claimed := false, invoked := none, effects := .ok [] }

/-- A raw command definition as a command module exports it. -/
structure CommandDefinition where
  commandAliases : List JStr
  uniqueId : Option JStr := none
  handle : HandlerOutcome := .resolves .undef
deriving DecidableEq

/-- Modelled from the spec: the `Command` wrapper (`command.js`, which is not
among the provided sources) normalizes a raw definition into a `Command`
whose exposed aliases are lowercase ("aliases: ordered sequence of string
(lowercase, non-empty, at least one element)"). -/
def Command.ofDefinition (d : CommandDefinition) : Command :=
  { aliases := d.commandAliases.map toLowerJs
    uniqueId := d.uniqueId
    handle := d.handle }

/-! Helper lemmas -/

theorem jcontains_iff (l : List JStr) (x : JStr) : l.contains x = true ↔ x ∈ l := by
  simp [List.contains, List.elem_iff]

theorem handleCommandError_isOk (msg : Msg) (err : ErrObj) (config : Config)
    (he : truthy err.publicMessage = true ∨ err.message.isSome = true) :
    ∃ effs, handleCommandError msg err config = .ok effs := by
  unfold handleCommandError
  rcases he with h | h
  · simp only [h, if_true]
    exact ⟨_, rfl⟩
  · rcases Option.isSome_iff_exists.mp h with ⟨m, hm⟩
    by_cases hp : truthy err.publicMessage
    · simp only [hp, if_true]
      exact ⟨_, rfl⟩
    · simp only [hp, if_false, hm]
      by_cases hc : jsIncludes m (str "Missing Permissions")
          && truthy config.missingPermissionsErrorMessage
      · simp only [hc, if_true]
        exact ⟨_, rfl⟩
      · simp only [hc, if_false]
        exact ⟨_, rfl⟩

/-! Claim C1 -/

/-- A registry holding one user command, as published by an earlier load. -/
def pingCommand : Command := { aliases := [str "\x7dping"] }

/-- A state published by a previous successful load. -/
def prevStateC1 : ManagerState := { commands_ := [pingCommand], settingsCategory_ := none }

/-- C1 counterexample: when directory enumeration fails, the previously
published registry is NOT left in place — `commands_` was already cleared at
the start of `load`, so the registry visible to `processInput` afterwards is
empty even though the previous registry was non-empty. -/
theorem c1_counterexample_previous_registry_not_preserved :
    (CommandManager.load [] none prevStateC1
        (.error (.opaqueTag (str "ENOENT")))).1.commands_ = []
    ∧ prevStateC1.commands_ ≠ [] := by
  constructor
  · rfl
  · decide

/-- C1 (amended): if directory enumeration fails during load, the load aborts
with the failure logged and performs nothing else; however the registry had
already been cleared synchronously at the start of `load`, so the state after
the failed load has an empty command list (the previous registry is not
preserved), while the previously derived settings category is kept. -/
theorem c1_load_enum_failure_aborts_with_cleared_registry
    (builtins : List Command) (reloadCommand : Option Command)
    (prev : ManagerState) (err : Cause) :
    CommandManager.load builtins reloadCommand prev (.error err) =
      ({ commands_ := [], settingsCategory_ := prev.settingsCategory_ },
       [Effect.logFailure loaderTitle (str "Error loading commands.") (some err)]) :=
  rfl

/-! Claim C2 -/

/-- A command whose handler rejects with an error that carries neither a
message text nor a public message. -/
def crashCommand : Command :=
  { aliases := [str "\x7dcrash"]
    handle := .rejects { publicMessage := none, logDescription := none,
                         message := none, isPublicError := false,
                         internalErr := none } }

/-- C2 counterexample: an error value that carries no message text (its
`message` field is absent) and no explicit public message makes the error
classifier itself throw — reading `err.message.indexOf` raises a `TypeError`
before any effect — so classification does not terminate normally for every
error value, and the failure escapes the dispatch of a matched command whose
handler rejects with such an error. -/
theorem c2_counterexample_classifier_throws_without_message :
    handleCommandError { content := str "\x7dping hello" }
      { publicMessage := none, logDescription := none, message := none,
        isPublicError := false, internalErr := none }
      { missingPermissionsErrorMessage := none, genericErrorMessage := none }
      = .error ()
    ∧ (processInput [crashCommand] { content := str "\x7dcrash" }
        { missingPermissionsErrorMessage := none,
          genericErrorMessage := none }).effects = .error () :=
  ⟨rfl, rfl⟩

/-- C2 (amended): every error raised by a matched command's handler — thrown
synchronously during hand-off or delivered as an asynchronous rejection — is
caught at the invocation boundary and handed to the error classifier, and
classification terminates normally for every error value that carries either
an explicit public-facing message or a message text; an error value carrying
neither makes the classifier itself throw. -/
theorem c2_dispatch_errors_contained_when_message_present
    (commands : List Command) (msg : Msg) (config : Config)
    (command : Command) (sfx : JStr) (err : ErrObj)
    (hinv : (processInput commands msg config).invoked = some (command, sfx))
    (hh : command.handle = .rejects err ∨ command.handle = .throwsSync err)
    (he : truthy err.publicMessage = true ∨ err.message.isSome = true) :
    ∃ effs, (processInput commands msg config).effects = .ok effs := by
  simp only [processInput] at hinv ⊢
  rcases hfind : List.find?
      (fun command => command.aliases.contains
        (commandTextOf (jsReplaceFirst msg.content fullWidthSpace ' ')))
      commands with _ | found
  · rw [hfind] at hinv
    exact absurd hinv (by simp)
  · rw [hfind] at hinv ⊢
    simp only [Option.some.injEq, Prod.mk.injEq] at hinv
    obtain ⟨hcmd, -⟩ := hinv
    subst hcmd
    rcases hh with hh | hh <;> simp only [hh] <;>
      exact handleCommandError_isOk msg err config he

/-- A command whose handler rejects with an error carrying message text. -/
def failCommand : Command :=
  { aliases := [str "\x7dfail"]
    handle := .rejects { message := some (str "boom") } }

/-- C2 witness: a concrete rejected invocation whose error carries a message
text is fully handled. -/
theorem c2_witness_concrete_rejection_handled :
    ∃ effs, (processInput [failCommand] { content := str "\x7dfail" }
      { missingPermissionsErrorMessage := none, genericErrorMessage := none }).effects
        = .ok effs :=
  c2_dispatch_errors_contained_when_message_present
    [failCommand] { content := str "\x7dfail" }
    { missingPermissionsErrorMessage := none, genericErrorMessage := none }
    failCommand [] { message := some (str "boom") }
    (by decide) (Or.inl rfl) (Or.inr (by decide))

/-! Claim C8 -/

/-- C8: an error with no explicit public-facing message whose message text
contains "Missing Permissions", classified under a config whose
`missingPermissionsErrorMessage` is set, resolves the public message to the
configured value and — when the error supplies no log description of its own
— the log description to "Missing permissions": the transport send carries
the configured message and the input-reaction log entry carries the default
description. -/
theorem c8_missing_permissions_classification
    (msg : Msg) (err : ErrObj) (config : Config) (m pm : JStr)
    (hpub : truthy err.publicMessage = false)
    (hmsg : err.message = some m)
    (hinc : jsIncludes m (str "Missing Permissions") = true)
    (hcfg : config.missingPermissionsErrorMessage = some pm)
    (hpm : pm.isEmpty = false)
    (hld : truthy err.logDescription = false) :
    ∃ rest, handleCommandError msg err config =
      .ok ([Effect.createMessage msg.channel pm,
            Effect.logInputReaction (str "COMMAND") msg.content [] false
              (.strv (str "Missing permissions"))] ++ rest) := by
  refine ⟨(match (if err.isPublicError then err.internalErr.map Cause.opaqueTag
              else some (Cause.errObj err)) with
           | some c =>
             [Effect.logFailure (str "COMMAND")
               (str "Command \x27" ++ msg.content ++
                str "\x27 threw an exception or returned a promise that rejected.")
               (some c)]
           | none => []), ?_⟩
  have hts : truthy (some (str "Missing permissions")) = true := by decide
  have htp : truthy (some pm) = true := by simp [truthy, hpm]
  simp only [handleCommandError, hpub, hmsg, hcfg, hinc, hld, htp, hts,
    Bool.false_eq_true, if_false, if_true, Bool.true_and, Option.getD_some]
  rfl

/-- A concrete error whose text mentions missing permissions. -/
def missingPermsErr : ErrObj :=
  { message := some (str "DiscordRESTError: Missing Permissions") }

/-- A concrete config supplying a dedicated missing-permissions message. -/
def noPermsConfig : Config :=
  { missingPermissionsErrorMessage := some (str "no perms") }

/-- C8 witness: the concrete classification from the spec's example. -/
theorem c8_witness_no_perms_example :
    ∃ rest, handleCommandError { content := str "\x7dban" } missingPermsErr noPermsConfig =
      .ok ([Effect.createMessage 0 (str "no perms"),
            Effect.logInputReaction (str "COMMAND") (str "\x7dban") [] false
              (.strv (str "Missing permissions"))] ++ rest) :=
  c8_missing_permissions_classification { content := str "\x7dban" }
    missingPermsErr noPermsConfig
    (str "DiscordRESTError: Missing Permissions") (str "no perms")
    (by decide) rfl (by decide) rfl (by decide) (by decide)

/-! Claim C9 -/

/-- C9: an input whose candidate command text matches no registered alias is
not claimed and produces no side effect at all: `processInput` returns
`false`, no command invocation happens, and no log or transport effect is
produced. -/
theorem c9_unmatched_input_no_side_effects
    (commands : List Command) (msg : Msg) (config : Config)
    (h : ∀ command ∈ commands,
      commandTextOf (jsReplaceFirst msg.content fullWidthSpace ' ')
        ∉ command.aliases) :
    processInput commands msg config =
      { claimed := false, invoked := none, effects := .ok [] } := by
  simp only [processInput]
  have hfind : List.find?
      (fun command => command.aliases.contains
        (commandTextOf (jsReplaceFirst msg.content fullWidthSpace ' ')))
      commands = none := by
    rw [List.find?_eq_none]
    intro x hx
    simpa [jcontains_iff] using h x hx
  rw [hfind]

/-- C9 witness: a message matching no alias of a one-command registry. -/
theorem c9_witness_unmatched_hello :
    processInput [pingCommand] { content := str "hello" }
      { missingPermissionsErrorMessage := none, genericErrorMessage := none } =
      { claimed := false, invoked := none, effects := .ok [] } :=
  c9_unmatched_input_no_side_effects [pingCommand] { content := str "hello" }
    { missingPermissionsErrorMessage := none, genericErrorMessage := none }
    (by decide)

/-! Claim C10 -/

/-- C10: when the matched command's handler completes without failing,
`processInput` logs exactly one input-reaction entry whose success flag is
true exactly when the resolved result is not a string, with the resolved
value as the logged description; in particular a handler resolving to a
string is recorded as unsuccessful with that string as description. -/
theorem c10_success_flag_reflects_string_result
    (commands : List Command) (msg : Msg) (config : Config)
    (command : Command) (sfx : JStr) (result : JsValue)
    (hinv : (processInput commands msg config).invoked = some (command, sfx))
    (hres : command.handle = .resolves result) :
    (processInput commands msg config).effects =
      .ok [Effect.logInputReaction (str "COMMAND") msg.content []
            (!result.isString) result]
    ∧ ∀ s, result = .strv s → (!result.isString) = false := by
  constructor
  · simp only [processInput] at hinv ⊢
    rcases hfind : List.find?
        (fun command => command.aliases.contains
          (commandTextOf (jsReplaceFirst msg.content fullWidthSpace ' ')))
        commands with _ | found
    · rw [hfind] at hinv
      exact absurd hinv (by simp)
    · rw [hfind] at hinv ⊢
      simp only [Option.some.injEq, Prod.mk.injEq] at hinv
      obtain ⟨hcmd, -⟩ := hinv
      subst hcmd
      simp only [hres]
  · rintro s rfl
    rfl

/-- A command whose handler resolves to a string (an unsuccessful reaction). -/
def usageCommand : Command :=
  { aliases := [str "\x7dtranslate"]
    handle := .resolves (.strv (str "usage: \x7dtranslate word")) }

/-- C10 witness: a handler resolving to a string is logged unsuccessful with
that string as the description. -/
theorem c10_witness_string_result_unsuccessful :
    (processInput [usageCommand] { content := str "\x7dtranslate" }
        { missingPermissionsErrorMessage := none, genericErrorMessage := none }).effects =
      .ok [Effect.logInputReaction (str "COMMAND") (str "\x7dtranslate") []
            false (.strv (str "usage: \x7dtranslate word"))]
    ∧ ∀ s, JsValue.strv (str "usage: \x7dtranslate word") = .strv s →
        (!(JsValue.strv (str "usage: \x7dtranslate word")).isString) = false :=
  c10_success_flag_reflects_string_result [usageCommand]
    { content := str "\x7dtranslate" }
    { missingPermissionsErrorMessage := none, genericErrorMessage := none }
    usageCommand [] (.strv (str "usage: \x7dtranslate word"))
    (by decide) rfl

/-! Claim C5 -/

theorem jsIndexOfChar_eq_none (l : JStr) (c : Char) (h : c ∉ l) :
    jsIndexOfChar l c = none := by
  induction l with
  | nil => rfl
  | cons x t ih =>
    simp only [List.mem_cons, not_or] at h
    simp only [jsIndexOfChar]
    rw [if_neg (fun hq => h.1 hq.symm), ih h.2]
    rfl

theorem jsIndexOfChar_append (a b : JStr) (c : Char) (h : c ∉ a) :
    jsIndexOfChar (a ++ c :: b) c = some a.length := by
  induction a with
  | nil => simp [jsIndexOfChar]
  | cons x t ih =>
    simp only [List.mem_cons, not_or] at h
    simp only [List.cons_append, jsIndexOfChar]
    rw [if_neg (fun hq => h.1 hq.symm),
      show t.append (c :: b) = t ++ c :: b from rfl, ih h.2]
    rfl

/-- C5: `processInput` first normalizes the full-width space character to an
ordinary space and then splits the normalized text at the first space: the
part before the space, lower-cased, is the candidate command text and
everything after it, trimmed, is the suffix; with no space the whole text is
the candidate and the suffix is empty. In particular the message
"\x7decho　hello" normalizes to "\x7decho hello" and yields command text
"\x7decho" and suffix "hello". -/
theorem c5_split_normalize_characterization :
    (∀ a b : JStr, ' ' ∉ a →
      commandTextOf (a ++ ' ' :: b) = toLowerJs a ∧
      suffixOf (a ++ ' ' :: b) = jsTrim b)
    ∧ (∀ content : JStr, ' ' ∉ content →
      commandTextOf content = toLowerJs content ∧ suffixOf content = [])
    ∧ (jsReplaceFirst (str "\x7decho　hello") fullWidthSpace ' ' = str "\x7decho hello"
       ∧ commandTextOf (jsReplaceFirst (str "\x7decho　hello") fullWidthSpace ' ')
           = str "\x7decho"
       ∧ suffixOf (jsReplaceFirst (str "\x7decho　hello") fullWidthSpace ' ')
           = str "hello") := by
  refine ⟨fun a b h => ⟨?_, ?_⟩, fun content h => ⟨?_, ?_⟩, by decide⟩
  · simp only [commandTextOf, jsIndexOfChar_append a b ' ' h]
    rw [List.take_left]
  · simp only [suffixOf, jsIndexOfChar_append a b ' ' h]
    have hsplit : a ++ ' ' :: b = (a ++ [' ']) ++ b := by simp
    have hlen : (a ++ [' ']).length = a.length + 1 := by simp
    rw [hsplit, ← hlen, List.drop_left]
  · simp only [commandTextOf, jsIndexOfChar_eq_none content ' ' h]
  · simp only [suffixOf, jsIndexOfChar_eq_none content ' ' h]

/-- C5 witness: the characterization applied to a concrete message with an
ordinary space. -/
theorem c5_witness_concrete_split :
    commandTextOf (str "\x7dping" ++ ' ' :: str "now") = toLowerJs (str "\x7dping") ∧
    suffixOf (str "\x7dping" ++ ' ' :: str "now") = jsTrim (str "now") :=
  c5_split_normalize_characterization.1 (str "\x7dping") (str "now") (by decide)

/-! Claim C6 -/

theorem find?_first {α : Type} (p : α → Bool) (l : List α) (j : Nat)
    (hj : j < l.length) (hpj : p (l.get ⟨j, hj⟩) = true)
    (hlt : ∀ k (hk : k < j), p (l.get ⟨k, Nat.lt_trans hk hj⟩) = false) :
    l.find? p = some (l.get ⟨j, hj⟩) := by
  induction l generalizing j with
  | nil => exact absurd hj (by simp)
  | cons x t ih =>
    cases j with
    | zero => exact List.find?_cons_of_pos t hpj
    | succ n =>
      have hx : p x = false := hlt 0 (Nat.succ_pos n)
      rw [List.find?_cons_of_neg t (by simp [hx])]
      exact ih n (Nat.lt_of_succ_lt_succ hj) hpj
        (fun k hk => hlt (k + 1) (Nat.succ_lt_succ hk))

/-- C6: matching is case-insensitive on the input and scans the registry in
registration order: when the lower-cased candidate text is an alias of the
command at position `j` and of no earlier command, `processInput` claims the
input and hands the invocation to that command; in particular the input
"\x7dPING" matches a registered alias "\x7dping". -/
theorem c6_first_match_case_insensitive :
    (∀ (commands : List Command) (msg : Msg) (config : Config) (j : Nat)
       (hj : j < commands.length),
       commandTextOf (jsReplaceFirst msg.content fullWidthSpace ' ')
         ∈ (commands.get ⟨j, hj⟩).aliases →
       (∀ k (hk : k < j),
         commandTextOf (jsReplaceFirst msg.content fullWidthSpace ' ')
           ∉ (commands.get ⟨k, Nat.lt_trans hk hj⟩).aliases) →
       (processInput commands msg config).claimed = true ∧
       (processInput commands msg config).invoked =
         some (commands.get ⟨j, hj⟩,
               suffixOf (jsReplaceFirst msg.content fullWidthSpace ' ')))
    ∧ ((processInput [pingCommand] { content := str "\x7dPING" }
          { missingPermissionsErrorMessage := none,
            genericErrorMessage := none }).claimed = true
       ∧ (processInput [pingCommand] { content := str "\x7dPING" }
            { missingPermissionsErrorMessage := none,
              genericErrorMessage := none }).invoked =
           some (pingCommand, [])) := by
  constructor
  · intro commands msg config j hj hmem hnot
    have hfind := find?_first
      (fun command => command.aliases.contains
        (commandTextOf (jsReplaceFirst msg.content fullWidthSpace ' ')))
      commands j hj
      (by simpa [jcontains_iff] using hmem)
      (fun k hk => Bool.eq_false_iff.mpr
        (fun hc => hnot k hk ((jcontains_iff _ _).mp hc)))
    simp only [processInput]
    rw [hfind]
    exact ⟨rfl, rfl⟩
  · constructor
    · decide
    · decide

/-- C6 witness: a concrete registry where the first command at position 0
matches and the suffix is handed over. -/
theorem c6_witness_first_position_match :
    (processInput [pingCommand] { content := str "\x7dping now" }
        { missingPermissionsErrorMessage := none,
          genericErrorMessage := none }).claimed = true ∧
    (processInput [pingCommand] { content := str "\x7dping now" }
        { missingPermissionsErrorMessage := none,
          genericErrorMessage := none }).invoked = some (pingCommand, str "now") :=
  c6_first_match_case_insensitive.1 [pingCommand]
    { content := str "\x7dping now" }
    { missingPermissionsErrorMessage := none, genericErrorMessage := none }
    0 (by decide) (by decide) (fun k hk => absurd hk (Nat.not_lt_zero k))

/-! Claim C3 -/

theorem getDuplicateAlias_eq_none_iff (c : Command) (reg : List Command) :
    getDuplicateAlias c reg = none ↔
      ∀ a ∈ c.aliases, ∀ cmd ∈ reg, a ∉ cmd.aliases := by
  simp [getDuplicateAlias, List.find?_eq_none, List.any_eq_true, jcontains_iff]

theorem loadStep_registry (st : List Command × List Effect) (item : LoadItem) :
    (loadStep st item).1 = st.1 ∨
    ∃ c, item.info = .ok c ∧ getDuplicateAlias c st.1 = none ∧
      (loadStep st item).1 = st.1 ++ [c] := by
  rcases item with ⟨f, info⟩
  rcases info with e | c
  · exact Or.inl rfl
  · by_cases hid : uniqueIdClash c st.1 = true
    · left
      simp [loadStep, hid]
    · rcases hdup : getDuplicateAlias c st.1 with _ | a
      · exact Or.inr ⟨c, rfl, hdup, by simp [loadStep, hid, hdup]⟩
      · left
        simp [loadStep, hid, hdup]

theorem pairwise_loadUser (items : List LoadItem) :
    ∀ st : List Command × List Effect,
      st.1.Pairwise (fun c1 c2 => ∀ x ∈ c1.aliases, x ∉ c2.aliases) →
      ((items.foldl loadStep st).1).Pairwise
        (fun c1 c2 => ∀ x ∈ c1.aliases, x ∉ c2.aliases) := by
  induction items with
  | nil => exact fun st h => h
  | cons item rest ih =>
    intro st h
    rw [List.foldl_cons]
    apply ih
    rcases loadStep_registry st item with heq | ⟨c, -, hdup, heq⟩
    · rw [heq]
      exact h
    · rw [heq, List.pairwise_append]
      refine ⟨h, by simp, ?_⟩
      intro a ha b hb
      simp only [List.mem_singleton] at hb
      subst hb
      intro x hx hxc
      exact (getDuplicateAlias_eq_none_iff _ st.1).mp hdup x hxc a ha hx

/-- Three load candidates that pairwise share the alias "x". -/
def cmdA : Command := { aliases := [str "x"] }

/-- Second candidate sharing alias "x" with `cmdA` and `cmdC`. -/
def cmdB : Command := { aliases := [str "b", str "x"] }

/-- Third candidate sharing alias "x" with `cmdA` and `cmdB`. -/
def cmdC : Command := { aliases := [str "x", str "c"] }

/-- Load input consisting of the three colliding candidates above. -/
def itemsC3 : List LoadItem :=
  [⟨str "a.js", .ok cmdA⟩, ⟨str "b.js", .ok cmdB⟩, ⟨str "c.js", .ok cmdC⟩]

/-- C3 counterexample: with three candidates all carrying alias "x", the pair
(`cmdB`, `cmdC`) shares an alias yet loading registers NEITHER of them (only
`cmdA` wins), so "loading registers exactly the first of them in load order"
fails for that pair. -/
theorem c3_counterexample_three_way_collision :
    (loadUserCommands itemsC3).1 = [cmdA]
    ∧ str "x" ∈ cmdB.aliases ∧ str "x" ∈ cmdC.aliases
    ∧ cmdB ∉ (loadUserCommands itemsC3).1
    ∧ cmdC ∉ (loadUserCommands itemsC3).1 := by
  decide

/-- C3 (amended): a candidate that passes the uniqueId check and shares an
alias with some already-registered command is skipped: the registry is left
unchanged, one duplicate-alias failure naming the colliding alias and the
source file is logged, and loading continues with the subsequent candidates;
consequently registered commands never share an alias, so of any
alias-sharing pair at most one — the earliest registrable holder of the
alias — is registered. -/
theorem c3_duplicate_alias_skip_logged_and_continue
    (reg : List Command) (log : List Effect) (f : JStr) (c : Command)
    (rest : List LoadItem) (a : JStr)
    (hid : uniqueIdClash c reg = false)
    (ha : a ∈ c.aliases) (hreg : ∃ cmd ∈ reg, a ∈ cmd.aliases) :
    (∃ a2, getDuplicateAlias c reg = some a2 ∧ a2 ∈ c.aliases ∧
      (∃ cmd ∈ reg, a2 ∈ cmd.aliases) ∧
      List.foldl loadStep (reg, log) (⟨f, .ok c⟩ :: rest) =
        List.foldl loadStep
          (reg, log ++ [Effect.logFailure loaderTitle
            (FailedToLoadMessageStart ++ f ++ str ". Error: alias: " ++ a2 ++
             str " is not unique") none]) rest)
    ∧ ∀ items : List LoadItem,
        ((loadUserCommands items).1).Pairwise
          (fun c1 c2 => ∀ x ∈ c1.aliases, x ∉ c2.aliases) := by
  constructor
  · obtain ⟨cmd, hcmd, hmem⟩ := hreg
    have hsome : (getDuplicateAlias c reg).isSome = true := by
      unfold getDuplicateAlias
      exact List.find?_isSome.mpr
        ⟨a, ha, List.any_eq_true.mpr ⟨cmd, hcmd, (jcontains_iff _ _).mpr hmem⟩⟩
    obtain ⟨a2, ha2⟩ := Option.isSome_iff_exists.mp hsome
    have ha2f : List.find?
        (fun al => reg.any fun cmd => cmd.aliases.contains al) c.aliases
        = some a2 := ha2
    refine ⟨a2, ha2, List.mem_of_find?_eq_some ha2f, ?_, ?_⟩
    · have hp0 := List.find?_some ha2f
      have hp : reg.any (fun cmd => cmd.aliases.contains a2) = true := hp0
      obtain ⟨cmd2, hc2, hm2⟩ := List.any_eq_true.mp hp
      exact ⟨cmd2, hc2, (jcontains_iff _ _).mp hm2⟩
    · rw [List.foldl_cons]
      congr 1
      simp [loadStep, hid, ha2]
  · intro items
    exact pairwise_loadUser items ([], []) (by simp)

/-- C3 witness: a concrete skip of `cmdB` against a registry holding `cmdA`. -/
theorem c3_witness_concrete_skip :
    (∃ a2, getDuplicateAlias cmdB [cmdA] = some a2 ∧ a2 ∈ cmdB.aliases ∧
      (∃ cmd ∈ [cmdA], a2 ∈ cmd.aliases) ∧
      List.foldl loadStep ([cmdA], []) [⟨str "b.js", .ok cmdB⟩] =
        List.foldl loadStep
          ([cmdA], [] ++ [Effect.logFailure loaderTitle
            (FailedToLoadMessageStart ++ str "b.js" ++ str ". Error: alias: " ++ a2 ++
             str " is not unique") none]) [])
    ∧ ∀ items : List LoadItem,
        ((loadUserCommands items).1).Pairwise
          (fun c1 c2 => ∀ x ∈ c1.aliases, x ∉ c2.aliases) :=
  c3_duplicate_alias_skip_logged_and_continue [cmdA] [] (str "b.js") cmdB []
    (str "x") (by decide) (by decide) ⟨cmdA, by decide, by decide⟩

/-! Claim C4 -/

/-- C4: under the spec-modelled `Command` wrapper (which exposes lowercase
aliases), the registry's alias-collision scan is case-insensitive on the raw
definitions: a candidate collides with the registered commands exactly when
one of its definition aliases equals some registered definition's alias up to
letter case (exact token match otherwise). -/
theorem c4_collision_scan_case_insensitive
    (d : CommandDefinition) (defs : List CommandDefinition) :
    (getDuplicateAlias (Command.ofDefinition d)
        (defs.map Command.ofDefinition)).isSome = true
    ↔ ∃ a ∈ d.commandAliases, ∃ e ∈ defs, ∃ b ∈ e.commandAliases,
        toLowerJs a = toLowerJs b := by
  simp only [getDuplicateAlias, Command.ofDefinition, List.find?_isSome,
    List.any_eq_true, List.mem_map, jcontains_iff]
  constructor
  · rintro ⟨x, ⟨a, ha, rfl⟩, cmd, ⟨e, he, rfl⟩, hmem⟩
    obtain ⟨b, hb, hba⟩ := List.mem_map.mp hmem
    exact ⟨a, ha, e, he, b, hb, hba.symm⟩
  · rintro ⟨a, ha, e, he, b, hb, hab⟩
    exact ⟨toLowerJs a, ⟨a, ha, rfl⟩, Command.ofDefinition e, ⟨e, he, rfl⟩,
      List.mem_map.mpr ⟨b, hb, hab.symm⟩⟩

/-- A raw definition whose alias differs from "\x7dping" only by case. -/
def pingUcDef : CommandDefinition := { commandAliases := [str "\x7dPing"] }

/-- A raw definition with the lowercase alias "\x7dping". -/
def pingLcDef : CommandDefinition := { commandAliases := [str "\x7dping"] }

/-- C4 witness: "\x7dPing" collides with a registered "\x7dping". -/
theorem c4_witness_case_differs :
    (getDuplicateAlias (Command.ofDefinition pingUcDef)
        ([pingLcDef].map Command.ofDefinition)).isSome = true :=
  (c4_collision_scan_case_insensitive pingUcDef [pingLcDef]).mpr
    ⟨str "\x7dPing", by decide, pingLcDef, by decide, str "\x7dping",
     by decide, by decide⟩

/-! Claim C7 -/

theorem mem_loadUser_of (items : List LoadItem) :
    ∀ (st : List Command × List Effect) (c : Command),
      c ∈ (items.foldl loadStep st).1 →
      c ∈ st.1 ∨ ∃ it ∈ items, it.info = .ok c := by
  induction items with
  | nil => exact fun st c h => Or.inl h
  | cons item rest ih =>
    intro st c h
    rw [List.foldl_cons] at h
    rcases ih _ c h with hst | ⟨it, hit, hok⟩
    · rcases loadStep_registry st item with heq | ⟨c2, hinfo, -, heq⟩
      · rw [heq] at hst
        exact Or.inl hst
      · rw [heq] at hst
        rcases List.mem_append.mp hst with h1 | h2
        · exact Or.inl h1
        · simp only [List.mem_singleton] at h2
          subst h2
          exact Or.inr ⟨item, List.mem_cons_self item rest, hinfo⟩
    · exact Or.inr ⟨it, List.mem_cons_of_mem item hit, hok⟩

/-- C7: after a successful load, the published registry is the registered
user commands followed by the built-ins (and the optional reload command),
and the derived settings tree is a single category named "commands" whose
children are exactly one boolean leaf per registered user command — built-ins
excluded — keyed by the command's first alias followed by "_enabled", with
default value true, in registration order. -/
theorem c7_settings_tree_one_leaf_per_user_command
    (builtins : List Command) (reloadCommand : Option Command)
    (prev : ManagerState) (items : List LoadItem)
    (hne : ∀ it ∈ items, ∀ c : Command, it.info = .ok c → c.aliases ≠ []) :
    (CommandManager.load builtins reloadCommand prev (.ok items)).1.commands_
      = (loadUserCommands items).1 ++ builtins ++ reloadCommand.toList
    ∧ ∃ children,
        (CommandManager.load builtins reloadCommand prev (.ok items)).1.settingsCategory_
          = some (.category (str "commands") children)
        ∧ children.length = (loadUserCommands items).1.length
        ∧ ∀ (i : Nat) (hi : i < (loadUserCommands items).1.length)
            (hc : i < children.length),
            ∃ a0 rest2,
              ((loadUserCommands items).1.get ⟨i, hi⟩).aliases = a0 :: rest2
              ∧ children.get ⟨i, hc⟩ =
                  SettingsNode.setting (a0 ++ str "_enabled")
                    (str "This setting controls whether the " ++ a0 ++
                     str " command (and all of its aliases) is allowed to be used or not.")
                    (str "BOOLEAN") true := by
  refine ⟨rfl, createSettingsHierarchyForCommands (loadUserCommands items).1, rfl,
    by simp [createSettingsHierarchyForCommands], ?_⟩
  intro i hi hc
  have hmem : (loadUserCommands items).1.get ⟨i, hi⟩ ∈ (loadUserCommands items).1 :=
    List.get_mem _ _ _
  have hali : ((loadUserCommands items).1.get ⟨i, hi⟩).aliases ≠ [] := by
    rcases mem_loadUser_of items ([], []) _ hmem with h0 | ⟨it, hit, hok⟩
    · exact absurd h0 (List.not_mem_nil _)
    · exact hne it hit _ hok
  rcases hh : ((loadUserCommands items).1.get ⟨i, hi⟩).aliases with _ | ⟨a0, rest2⟩
  · exact absurd hh hali
  · refine ⟨a0, rest2, rfl, ?_⟩
    have hgm : (createSettingsHierarchyForCommands (loadUserCommands items).1).get ⟨i, hc⟩
        = createSettingsHierarchyForCommand ((loadUserCommands items).1.get ⟨i, hi⟩) := by
      simp [createSettingsHierarchyForCommands, List.get_eq_getElem, List.getElem_map]
    rw [hgm]
    rw [List.get_eq_getElem] at hh
    simp [createSettingsHierarchyForCommand, List.get_eq_getElem, hh]

/-- C7 witness: a single registered user command yields a single boolean leaf
keyed by its first alias. -/
theorem c7_witness_single_user_command :
    (CommandManager.load [] none { commands_ := [], settingsCategory_ := none }
        (.ok [⟨str "ping.js", .ok pingCommand⟩])).1.commands_
      = (loadUserCommands [⟨str "ping.js", .ok pingCommand⟩]).1 ++ []
          ++ (none : Option Command).toList
    ∧ ∃ children,
        (CommandManager.load [] none { commands_ := [], settingsCategory_ := none }
            (.ok [⟨str "ping.js", .ok pingCommand⟩])).1.settingsCategory_
          = some (.category (str "commands") children)
        ∧ children.length = (loadUserCommands [⟨str "ping.js", .ok pingCommand⟩]).1.length
        ∧ ∀ (i : Nat)
            (hi : i < (loadUserCommands [⟨str "ping.js", .ok pingCommand⟩]).1.length)
            (hc : i < children.length),
            ∃ a0 rest2,
              ((loadUserCommands [⟨str "ping.js", .ok pingCommand⟩]).1.get
                  ⟨i, hi⟩).aliases = a0 :: rest2
              ∧ children.get ⟨i, hc⟩ =
                  SettingsNode.setting (a0 ++ str "_enabled")
                    (str "This setting controls whether the " ++ a0 ++
                     str " command (and all of its aliases) is allowed to be used or not.")
                    (str "BOOLEAN") true :=
  c7_settings_tree_one_leaf_per_user_command [] none
    { commands_ := [], settingsCategory_ := none }
    [⟨str "ping.js", .ok pingCommand⟩]
    (by
      intro it hit c hok
      simp only [List.mem_singleton] at hit
      subst hit
      simp only [Except.ok.injEq] at hok
      subst hok
      decide)

end Kotoba
